import Mathlib

/-!
Verification of the WHACK scan pipeline (src/main.py): tool selection, per-tool
output normalization, and result aggregation, shallowly embedded in Lean.
Python strings are modelled as `String` / `List Char`; fallible Python code
(uncaught exceptions) is modelled with `Except`; `str.strip`, `str.split`,
`str.splitlines`, `os.path.basename` and `os.path.splitext` are re-implemented
below, faithful to their Python semantics on the ASCII text these tools emit
(`subprocess.run(text=True)` already canonicalizes line endings to a bare
newline, so splitting lines on the newline character matches `str.splitlines`).
-/

deriving instance DecidableEq for Except

/-- Whether the first list is a leading segment of the second
(Python `str.startswith`). -/
def startsWithC : List Char → List Char → Bool
  | [], _ => true
  | _ :: _, [] => false
  | a :: ns, b :: hs => a == b && startsWithC ns hs

/-- Whether `needle` occurs contiguously inside `hay` (Python `needle in hay`). -/
def containsSub (needle : List Char) : List Char → Bool
  | [] => startsWithC needle []
  | c :: cs => startsWithC needle (c :: cs) || containsSub needle cs

/-- String-level substring test (Python `needle in hay`). -/
def containsS (needle hay : String) : Bool :=
  containsSub needle.data hay.data

/-- Drop leading whitespace, then trailing whitespace: Python `str.strip()`. -/
def pyStripC (s : List Char) : List Char :=
  ((s.dropWhile Char.isWhitespace).reverse.dropWhile Char.isWhitespace).reverse

/-- Python `str.strip()` on `String`. -/
def pyStrip (s : String) : String :=
  ⟨pyStripC s.data⟩

/-- Python `str.splitlines()` for text whose only line terminator is a bare
newline: `""` gives no lines, and a trailing newline does not open an extra
empty line. -/
def splitLinesC : List Char → List (List Char)
  | [] => []
  | c :: cs =>
    if c = '\n' then [] :: splitLinesC cs
    else
      match splitLinesC cs with
      | [] => [[c]]
      | l :: ls => (c :: l) :: ls

/-- Python `"\n".join(lines)` on character lists. -/
def joinLinesC (ls : List (List Char)) : List Char :=
  List.intercalate ['\n'] ls

/-- Python `s.split(",")`: split at every comma, keeping empty fields; the
empty string yields one empty field. -/
def pySplitCommaC : List Char → List (List Char)
  | [] => [[]]
  | c :: cs =>
    if c = ',' then [] :: pySplitCommaC cs
    else
      match pySplitCommaC cs with
      | [] => [[c]]
      | t :: ts => (c :: t) :: ts

/-- Python `s.split(",")` on `String`. -/
def pySplitComma (s : String) : List String :=
  (pySplitCommaC s.data).map (fun l => ⟨l⟩)

/-- Python `s.split(" ", 1)`: at most one split, at the first space; a string
with no space yields a one-element list. -/
def pySplit1Space (s : List Char) : List (List Char) :=
  if (s.takeWhile (fun c => c != ' ')).length = s.length then [s]
  else [s.takeWhile (fun c => c != ' '),
        s.drop ((s.takeWhile (fun c => c != ' ')).length + 1)]

/-- Python `s.split()` with no separator: split on whitespace runs, dropping
empty fields.  `cur` accumulates the current field in reverse. -/
def pySplitWSGo (cur : List Char) : List Char → List (List Char)
  | [] => if cur.isEmpty then [] else [cur.reverse]
  | c :: cs =>
    if c.isWhitespace then
      if cur.isEmpty then pySplitWSGo [] cs
      else cur.reverse :: pySplitWSGo [] cs
    else pySplitWSGo (c :: cur) cs

/-- Python `s.split()` (whitespace split, no empty fields). -/
def pySplitWS (s : List Char) : List (List Char) :=
  pySplitWSGo [] s

/-- Python `str.lower()` (ASCII case folding suffices for the tool names). -/
def pyLower (s : String) : String :=
  ⟨s.data.map Char.toLower⟩

/-- Python `os.path.basename`: the part of the path after its last slash. -/
def baseNameC (p : List Char) : List Char :=
  (p.reverse.takeWhile (fun c => c != '/')).reverse

/-- The root part of Python `os.path.splitext`: cut at the last dot, unless
every character before that dot is itself a dot (e.g. `.bashrc` keeps its
name whole). -/
def splitextRootC (p : List Char) : List Char :=
  let rev := p.reverse
  let after := rev.takeWhile (fun c => c != '.')
  if after.length = rev.length then p
  else
    let pre := rev.drop (after.length + 1)
    if pre.all (fun c => c == '.') then p else pre.reverse

-- ─── Tool registry and selection (src/main.py lines 65-94) ───────────────────

/-- Runtime configuration: the globals `url`, `ports`, `target_ip` and the
resolved `seclist_file` path of src/main.py. -/
structure Config where
  url : String
  ports : String
  target_ip : String
  seclist_file : String
deriving DecidableEq

/-- The `allowed_tools` list of src/main.py line 65. -/
def allowed_tools : List String :=
  ["nmap", "whatweb", "wafwoof", "ffuf", "nikto"]

/-- The `commands` registry of src/main.py lines 68-78: tool key paired with
its argument vector, in declared order. -/
def commandsL (cfg : Config) : List (String × List String) :=
  [("Nmap", ["nmap", "-sV", "-p", cfg.ports, cfg.target_ip]),
   ("Whatweb", ["whatweb", cfg.url]),
   ("Wafwoof", ["wafw00f", cfg.url]),
   ("Ffuf", ["ffuf", "-u", cfg.url ++ "/FUZZ", "-w", cfg.seclist_file,
             "-of", "json", "-o", "./outputs/ffuf_result.json"]),
   ("Nikto", ["nikto", "-h", cfg.url])]

/-- The outcome of `sys.exit(1)` after `logging.error` in `filterCommands`:
the offending names reported together, and the process exit code. -/
structure SelErr where
  invalid : List String
  exitCode : Nat
deriving DecidableEq

/-- The tokens of the selection string: `tools.split(",")` with each item
stripped and lower-cased (src/main.py line 83). -/
def tokensOf (tools : String) : List String :=
  (pySplitComma tools).map (fun t => pyLower (pyStrip t))

/-- Key order of a Python dict comprehension: first occurrence wins. -/
def dedupKeysFirst : List String → List String
  | [] => []
  | k :: ks => k :: (dedupKeysFirst ks).filter (fun x => !(x == k))

/-- `filterCommands` of src/main.py lines 80-94.  The `"all"` comparison is
exact; otherwise the stripped, lower-cased tokens are checked against
`allowed_tools`, any unknown token aborts with exit code 1 listing every
offender, and the surviving tokens are mapped back (case-insensitively) to
registry entries through a dict comprehension that keeps first occurrences. -/
def filterCommands (cfg : Config) (tools : String) :
    Except SelErr (List (String × List String)) :=
  if tools = "all" then Except.ok (commandsL cfg)
  else if (tokensOf tools).filter (fun t => !((allowed_tools.map pyLower).contains t)) = [] then
    Except.ok ((dedupKeysFirst (tokensOf tools)).filterMap
      (fun t => (commandsL cfg).find? (fun kc => pyLower kc.1 == t)))
  else
    Except.error
      ⟨(tokensOf tools).filter (fun t => !((allowed_tools.map pyLower).contains t)), 1⟩

/-- The argument vectors handed to `subprocess.run`: none when selection
fails, since `sys.exit(1)` fires before the dispatch loop. -/
def dispatchedCommands (cfg : Config) (tools : String) : List (List String) :=
  match filterCommands cfg tools with
  | Except.ok l => l.map (fun kc => kc.2)
  | Except.error _ => []

-- ─── Dispatch outcome and logging (src/main.py lines 138-153, 180-185) ───────

/-- A `subprocess.run` outcome: the process exit code and the captured
combined stdout/stderr text. -/
structure Outcome where
  returncode : Int
  stdout : String
deriving DecidableEq

/-- A `logging` call emitted while checking exit codes. -/
inductive LogEvent
  | info (msg : String)
  | error (msg : String)
deriving DecidableEq

/-- `log_checking_codes` of src/main.py lines 138-153: strips the captured
output, and on a nonzero exit code either accepts Nikto output that carries
the version banner plus a target/server marker, or prefixes the stripped
output with an error marker.  Returns the resulting text together with the
log events the function emits. -/
def logCheckingCodes (tool_name : String) (returncode : Int) (output0 : String) :
    String × List LogEvent :=
  if returncode ≠ 0 then
    if tool_name = "Nikto" then
      if containsS "Nikto v" (pyStrip output0) &&
          (containsS "+ Target" (pyStrip output0) || containsS "+ Server:" (pyStrip output0)) then
        (pyStrip output0, [LogEvent.info (tool_name ++ " executed successfully.")])
      else
        ("Error: " ++ pyStrip output0,
         [LogEvent.error "Nikto failed: no valid output returned."])
    else
      ("Error: " ++ pyStrip output0,
       [LogEvent.error (tool_name ++ " failed with exit code " ++ toString returncode)])
  else
    (pyStrip output0, [LogEvent.info (tool_name ++ " executed successfully.")])

-- ─── Ffuf structured side channel (src/main.py lines 155-173) ────────────────

/-- One element of the `results` array of `./outputs/ffuf_result.json`, as it
comes out of `json.load`: nothing guarantees the expected schema, so each
field the code subscripts is optional.  A `none` field stands for a missing
key or an ill-typed value there (`r["input"]["FUZZ"]` collapsed into `fuzz`);
subscripting it raises `KeyError`/`TypeError`.  A wholly non-dict entry is an
entry with every field `none`. -/
structure FfufEntry where
  fuzz : Option String
  status : Option Nat
  length : Option Nat
  words : Option Nat
  lines : Option Nat
deriving DecidableEq

/-- Whether an entry carries every field the Ffuf branch subscripts, so no
access into it can raise. -/
def entryWellTyped (r : FfufEntry) : Bool :=
  r.fuzz.isSome && r.status.isSome && r.length.isSome && r.words.isSome && r.lines.isSome

/-- An entry on which every subscript raises (e.g. the `{}` element of a
`{"results": [{}]}` file, or a non-dict element). -/
def illEntry : FfufEntry :=
  ⟨none, none, none, none, none⟩

/-- The state of the structured results file that `get_ffuf_results` opens:
missing, unparseable JSON, JSON whose top level is not an object, or a parsed
object whose `results` key may be absent (its entries, when present, are raw
`FfufEntry` values that may be ill-typed). -/
inductive FfufFile
  | absent
  | malformed
  | nonObject
  | parsed (results : Option (List FfufEntry))
deriving DecidableEq

/-- The uncaught Python exceptions the normalization step can raise;
`keyError` covers both `KeyError` and `TypeError` from subscripting an
ill-typed results entry. -/
inductive NormError
  | indexError
  | fileNotFound
  | jsonDecodeError
  | attributeError
  | keyError
deriving DecidableEq

/-- `get_ffuf_results` of src/main.py lines 155-159: `open` raises on a
missing file, `json.load` raises on malformed content, `.get` raises on a
non-object top level, and `data.get("results", [])` defaults to the empty
list when the key is absent.  No exception handler surrounds any of this;
the entries themselves are returned unexamined. -/
def get_ffuf_results : FfufFile → Except NormError (List FfufEntry)
  | FfufFile.absent => Except.error NormError.fileNotFound
  | FfufFile.malformed => Except.error NormError.jsonDecodeError
  | FfufFile.nonObject => Except.error NormError.attributeError
  | FfufFile.parsed none => Except.ok []
  | FfufFile.parsed (some rs) => Except.ok rs

/-- `filter_by_length` of src/main.py lines 171-173: keep every entry whose
`length` differs from the wildcard baseline.  The comprehension subscripts
`result["length"]` on every entry, so the first entry without a well-typed
`length` raises. -/
def filter_by_length : List FfufEntry → Nat → Except NormError (List FfufEntry)
  | [], _ => Except.ok []
  | r :: rest, wildcard_length =>
    match r.length with
    | none => Except.error NormError.keyError
    | some len =>
      (filter_by_length rest wildcard_length).map
        (fun fs => if len ≠ wildcard_length then r :: fs else fs)

/-- The per-finding display line of src/main.py line 213 (the source really
does print the word count twice); building it subscripts `input.FUZZ`,
`status`, `length`, `words` and `lines`, raising on whichever is missing. -/
def formatFfufLine (r : FfufEntry) : Except NormError String :=
  match r.fuzz, r.status, r.length, r.words, r.lines with
  | some fz, some st, some len, some wd, some ln =>
    Except.ok (fz ++ " [Status: " ++ toString st ++ ", Size: " ++ toString len ++
      ", Words: " ++ toString wd ++ ", Lines: " ++ toString ln ++
      ", Words: " ++ toString wd ++ "]")
  | _, _, _, _, _ => Except.error NormError.keyError

/-- The generator consumed by `"\n".join(...)` on line 212-215: the display
lines in order, raising at the first ill-typed surviving entry. -/
def formatFfufLines : List FfufEntry → Except NormError (List String)
  | [] => Except.ok []
  | r :: rest =>
    match formatFfufLine r with
    | Except.error e => Except.error e
    | Except.ok s => (formatFfufLines rest).map (fun ss => s :: ss)

-- ─── Per-tool output cleaning (src/main.py lines 188-235) ────────────────────

/-- Whether a line carries a Wafwoof verdict marker (line 190). -/
def wafMarker (l : List Char) : Bool :=
  containsSub "No WAF detected".data l || containsSub "is behind".data l

/-- The Wafwoof branch (lines 188-192): the first line containing a verdict
marker replaces the whole output; with no such line the output is unchanged. -/
def wafwoofClean (s : String) : String :=
  match (splitLinesC s.data).find? wafMarker with
  | some l => ⟨l⟩
  | none => s

/-- The Whatweb branch (lines 193-194): `output.split(" ", 1)[1]` — the
leading token is dropped, and indexing raises `IndexError` when the output
contains no space at all. -/
def whatwebClean (s : String) : Except NormError String :=
  match (pySplit1Space s.data).get? 1 with
  | some t => Except.ok ⟨t⟩
  | none => Except.error NormError.indexError

/-- Whether a line starts with one of the five Nmap banner prefixes dropped
by the Nmap branch (lines 198-203). -/
def nmapBannerLine (l : List Char) : Bool :=
  startsWithC "Starting Nmap".data l ||
  startsWithC "Nmap scan report for".data l ||
  startsWithC "Host is up".data l ||
  startsWithC "Service detection performed.".data l ||
  startsWithC "Nmap done:".data l

/-- The Nmap branch (lines 195-206): drop banner lines, rejoin, strip. -/
def nmapClean (s : String) : String :=
  ⟨pyStripC (joinLinesC ((splitLinesC s.data).filter (fun l => !nmapBannerLine l)))⟩

/-- Whether a line survives the Nikto keep test of line 221: it must start
with the finding marker `+` but not with the separator prefix `+-`. -/
def isFindingLine (l : List Char) : Bool :=
  startsWithC ['+'] l && !startsWithC ['+', '-'] l

/-- The dedup key of a Nikto line (lines 224-228): the first
whitespace-delimited token beginning with a slash, reduced to the
extension-free base name of that path; `none` when no token is a path. -/
def lineBase (l : List Char) : Option (List Char) :=
  ((pySplitWS l).find? (fun p => startsWithC ['/'] p)).map
    (fun p => splitextRootC (baseNameC p))

/-- The Nikto selection loop (lines 217-233): walk the lines with a `seen`
set of base names, keeping a finding line unless its path's base name was
already seen (a pathless finding line is always kept). -/
def niktoSelectGo (seen : List (List Char)) : List (List Char) → List (List Char)
  | [] => []
  | l :: ls =>
    if isFindingLine l then
      match lineBase l with
      | some b =>
        if seen.contains b then niktoSelectGo seen ls
        else l :: niktoSelectGo (b :: seen) ls
      | none => l :: niktoSelectGo seen ls
    else niktoSelectGo seen ls

/-- The Nikto selection starting from an empty `seen` set. -/
def niktoSelect (ls : List (List Char)) : List (List Char) :=
  niktoSelectGo [] ls

/-- The Nikto branch (lines 216-235): select lines, strip each, rejoin. -/
def niktoClean (s : String) : String :=
  ⟨joinLinesC ((niktoSelect (splitLinesC s.data)).map pyStripC)⟩

-- ─── The pipeline loop body and the loop itself (lines 175-240) ──────────────

/-- One row of the `results` list (lines 237-240). -/
structure ScanResult where
  Tool : String
  Result : String
deriving DecidableEq

/-- The normalization part of one loop iteration (lines 184-235): the output
of `log_checking_codes` fed through the tool's cleaning branch.  The Ffuf
branch always reads the structured file first (propagating its exceptions)
and only formats/filters findings when the wildcard probe produced a
baseline; otherwise it leaves the console text untouched. -/
def normalizeStep (tool_name : String) (result : Outcome) (ffufFile : FfufFile)
    (wildcard : Option Nat) : Except NormError String :=
  let output := (logCheckingCodes tool_name result.returncode result.stdout).1
  if tool_name = "Wafwoof" then Except.ok (wafwoofClean output)
  else if tool_name = "Whatweb" then whatwebClean output
  else if tool_name = "Nmap" then Except.ok (nmapClean output)
  else if tool_name = "Ffuf" then
    match get_ffuf_results ffufFile with
    | Except.error e => Except.error e
    | Except.ok ffuf_results =>
      match wildcard with
      | some wildcard_length =>
        match filter_by_length ffuf_results wildcard_length with
        | Except.error e => Except.error e
        | Except.ok filtered_results =>
          match formatFfufLines filtered_results with
          | Except.error e => Except.error e
          | Except.ok line_strings => Except.ok (String.intercalate "\n" line_strings)
      | none => Except.ok output
  else if tool_name = "Nikto" then Except.ok (niktoClean output)
  else Except.ok output

/-- One full loop iteration: normalization followed by the
`results.append({"Tool": ..., "Result": output.strip()})` of lines 237-240. -/
def runStep (tool_name : String) (result : Outcome) (ffufFile : FfufFile)
    (wildcard : Option Nat) : Except NormError ScanResult :=
  (normalizeStep tool_name result ffufFile wildcard).map
    (fun out => ⟨tool_name, pyStrip out⟩)

/-- The pipeline loop over the selected tools: each entry carries the tool
key, its dispatch outcome, the state of the Ffuf side-channel file, and the
wildcard probe result.  An uncaught exception in any step aborts the whole
loop, exactly as in the unguarded Python `for`. -/
def runPipeline : List (String × Outcome × FfufFile × Option Nat) →
    Except NormError (List ScanResult)
  | [] => Except.ok []
  | (n, o, f, w) :: rest =>
    match runStep n o f w with
    | Except.error e => Except.error e
    | Except.ok r => (runPipeline rest).map (fun rs => r :: rs)

-- ─── Concrete sample data used by witnesses ──────────────────────────────────

/-- A concrete runtime configuration for witnesses. -/
def cfg0 : Config :=
  ⟨"http://example.com", "80,443", "example.com", "seclist_discovery.txt"⟩

/-- A concrete schema-conformant results entry. -/
def goodEntry : FfufEntry :=
  ⟨some "/admin", some 200, some 1234, some 5, some 6⟩

/-- A concrete two-tool pipeline input, the first tool failing. -/
def sampleEntries : List (String × Outcome × FfufFile × Option Nat) :=
  [("Nmap", ⟨1, "boom"⟩, FfufFile.absent, none),
   ("Wafwoof", ⟨0, "No WAF detected by x"⟩, FfufFile.absent, none)]

/-- A concrete Nikto output with two findings sharing base name `config`. -/
def niktoSample : String :=
  "+ Server: Apache\n+ /admin/config.php found\n+-----------+\n+ /admin/config.bak found"

-- ─── Helper lemmas: strip, split, lines ──────────────────────────────────────

theorem dropWhile_self_idem (p : Char → Bool) (l : List Char) :
    (l.dropWhile p).dropWhile p = l.dropWhile p := by
  induction l with
  | nil => rfl
  | cons c cs ih =>
    cases h : p c
    · simp [List.dropWhile_cons, h]
    · simp [List.dropWhile_cons, h, ih]

theorem dropWhile_suffix_ex (p : Char → Bool) (l : List Char) :
    ∃ t, t ++ l.dropWhile p = l := by
  induction l with
  | nil => exact ⟨[], rfl⟩
  | cons c cs ih =>
    cases h : p c
    · exact ⟨[], by simp [List.dropWhile_cons, h]⟩
    · obtain ⟨t, ht⟩ := ih
      exact ⟨c :: t, by simp [List.dropWhile_cons, h, ht]⟩

theorem dropWhile_eq_self_of_prefix (p : Char → Bool) {m x : List Char}
    (hm : m.dropWhile p = m) (hx : x <+: m) : x.dropWhile p = x := by
  cases x with
  | nil => rfl
  | cons a x2 =>
    obtain ⟨t, ht⟩ := hx
    cases h : p a
    · simp [List.dropWhile_cons, h]
    · exfalso
      rw [← ht] at hm
      rw [List.cons_append, List.dropWhile_cons_of_pos h] at hm
      have hlen := congrArg List.length hm
      have hle := (List.dropWhile_sublist (l := x2 ++ t) p).length_le
      simp at hlen hle
      omega

theorem pyStripC_idem (s : List Char) : pyStripC (pyStripC s) = pyStripC s := by
  unfold pyStripC
  have hmm : (s.dropWhile Char.isWhitespace).dropWhile Char.isWhitespace =
      s.dropWhile Char.isWhitespace := dropWhile_self_idem _ s
  have hpre : (((s.dropWhile Char.isWhitespace).reverse.dropWhile Char.isWhitespace).reverse)
      <+: s.dropWhile Char.isWhitespace := by
    obtain ⟨t, ht⟩ := dropWhile_suffix_ex Char.isWhitespace
      (s.dropWhile Char.isWhitespace).reverse
    refine ⟨t.reverse, ?_⟩
    have h2 := congrArg List.reverse ht
    simpa using h2
  have hE := dropWhile_eq_self_of_prefix Char.isWhitespace hmm hpre
  rw [hE, List.reverse_reverse, dropWhile_self_idem]

theorem pyStrip_idem (s : String) : pyStrip (pyStrip s) = pyStrip s :=
  congrArg String.mk (pyStripC_idem s.data)

theorem splitLinesC_no_newline : ∀ {cs : List Char} {l : List Char},
    l ∈ splitLinesC cs → '\n' ∉ l := by
  intro cs
  induction cs with
  | nil => intro l h; simp [splitLinesC] at h
  | cons c cs ih =>
    intro l h
    rw [splitLinesC] at h
    by_cases hc : c = '\n'
    · rw [if_pos hc] at h
      rcases List.mem_cons.mp h with h1 | h1
      · subst h1; simp
      · exact ih h1
    · rw [if_neg hc] at h
      cases hsp : splitLinesC cs with
      | nil =>
        rw [hsp] at h
        simp only [List.mem_singleton] at h
        subst h
        simp only [List.mem_singleton]
        exact fun h2 => hc h2.symm
      | cons l0 ls =>
        rw [hsp] at h
        rcases List.mem_cons.mp h with h1 | h1
        · subst h1
          intro hmem
          rcases List.mem_cons.mp hmem with h2 | h2
          · exact hc h2.symm
          · exact ih (hsp ▸ List.mem_cons_self l0 ls) h2
        · exact ih (hsp ▸ List.mem_cons_of_mem _ h1)

theorem splitLinesC_single : ∀ {l : List Char}, l ≠ [] → '\n' ∉ l →
    splitLinesC l = [l] := by
  intro l
  induction l with
  | nil => intro h; exact absurd rfl h
  | cons c cs ih =>
    intro _ hnl
    have hc : ¬ c = '\n' := fun h => hnl (h ▸ List.mem_cons_self c cs)
    rw [splitLinesC, if_neg hc]
    cases cs with
    | nil => rfl
    | cons d ds =>
      rw [ih (by simp) (fun hm => hnl (List.mem_cons_of_mem c hm))]

-- ─── Helper lemmas: Whatweb split, runStep reductions ────────────────────────

theorem takeWhile_length_lt_of_space : ∀ {l : List Char}, ' ' ∈ l →
    (l.takeWhile (fun c => c != ' ')).length < l.length := by
  intro l
  induction l with
  | nil => intro h; simp at h
  | cons c cs ih =>
    intro h
    by_cases hc : c = ' '
    · subst hc
      simp [List.takeWhile_cons]
    · have h2 : ' ' ∈ cs := by
        rcases List.mem_cons.mp h with h1 | h1
        · exact absurd h1.symm hc
        · exact h1
      have h3 := ih h2
      have hb : (c != ' ') = true := by simp [hc]
      simp only [List.takeWhile_cons, hb, if_true, List.length_cons]
      omega

theorem whatwebClean_ok_of_space {s : String} (h : ' ' ∈ s.data) :
    ∃ t, whatwebClean s = Except.ok t := by
  unfold whatwebClean pySplit1Space
  rw [if_neg (Nat.ne_of_lt (takeWhile_length_lt_of_space h))]
  exact ⟨_, rfl⟩

theorem runStep_whatweb_ok_of_space {rc : Int} {out : String} (f : FfufFile) (w : Option Nat)
    (h : ' ' ∈ ((logCheckingCodes "Whatweb" rc out).1).data) :
    (runStep "Whatweb" ⟨rc, out⟩ f w).isOk = true := by
  have hr : runStep "Whatweb" ⟨rc, out⟩ f w =
      (whatwebClean ((logCheckingCodes "Whatweb" rc out).1)).map
        (fun o => ⟨"Whatweb", pyStrip o⟩) := rfl
  obtain ⟨t, ht⟩ := whatwebClean_ok_of_space h
  rw [hr, ht]
  rfl

theorem logCheckingCodes_fail {tool_name : String} {rc : Int} (out : String)
    (h1 : tool_name ≠ "Nikto") (h2 : rc ≠ 0) :
    logCheckingCodes tool_name rc out =
      ("Error: " ++ pyStrip out,
       [LogEvent.error (tool_name ++ " failed with exit code " ++ toString rc)]) := by
  unfold logCheckingCodes
  rw [if_pos h2, if_neg h1]

theorem mem_space_error_prefix (x : String) : ' ' ∈ ("Error: " ++ x).data := by
  have hd : ("Error: " ++ x).data = "Error: ".data ++ x.data := by
    cases x with
    | mk l => rfl
  rw [hd]
  exact List.mem_append_left _ (by decide)

theorem runStep_whatweb_ok_of_fail {rc : Int} (out : String) (f : FfufFile) (w : Option Nat)
    (h : rc ≠ 0) : (runStep "Whatweb" ⟨rc, out⟩ f w).isOk = true := by
  apply runStep_whatweb_ok_of_space f w
  rw [logCheckingCodes_fail out (by decide) h]
  exact mem_space_error_prefix (pyStrip out)

-- ─── C4: idempotence of the normalization rules ──────────────────────────────

/-- Claim C4 (counterexample): the fingerprint and service-scan rules are not
idempotent.  Re-normalizing the fingerprint output of
`"http://x.com WhatWeb output"` strips a further token, and the
service-scan strip of a banner line hidden behind leading whitespace lets a
second pass delete it. -/
theorem C4_counterexample :
    Except.bind (whatwebClean "http://x.com WhatWeb output") whatwebClean ≠
      whatwebClean "http://x.com WhatWeb output" ∧
    nmapClean (nmapClean "  Starting Nmap 7.9") ≠ nmapClean "  Starting Nmap 7.9" := by
  decide

/-- Claim C4 (amended): of the three rules named by the claim only the
WAF-detect rule is idempotent: feeding the Wafwoof-normalized text back
through the Wafwoof normalizer leaves it unchanged. -/
theorem C4_amended (s : String) : wafwoofClean (wafwoofClean s) = wafwoofClean s := by
  cases hf : (splitLinesC s.data).find? wafMarker with
  | none =>
    have h1 : wafwoofClean s = s := by unfold wafwoofClean; rw [hf]
    rw [h1]
    exact h1
  | some l =>
    have hmem : l ∈ splitLinesC s.data := List.mem_of_find?_eq_some hf
    have hmark : wafMarker l = true := List.find?_some hf
    have hnl : '\n' ∉ l := splitLinesC_no_newline hmem
    have hne : l ≠ [] := by
      intro h
      subst h
      exact absurd hmark (by decide)
    have h1 : wafwoofClean s = ⟨l⟩ := by unfold wafwoofClean; rw [hf]
    rw [h1]
    unfold wafwoofClean
    have h2 : splitLinesC (String.data ⟨l⟩) = [l] := splitLinesC_single hne hnl
    rw [h2, List.find?_cons_of_pos _ hmark]

-- ─── C2: normalization never raising ─────────────────────────────────────────

/-- Claim C2 (counterexample): Whatweb normalization of an empty captured
output raises `IndexError` (`"".split(" ", 1)[1]` is out of range), so
normalization does not hold for every captured raw output text. -/
theorem C2_counterexample :
    runStep "Whatweb" ⟨0, ""⟩ FfufFile.absent none = Except.error NormError.indexError := by
  decide

theorem filter_by_length_wellTyped (wl : Nat) : ∀ {rs : List FfufEntry},
    (∀ r ∈ rs, entryWellTyped r = true) →
    ∃ fs, filter_by_length rs wl = Except.ok fs ∧ ∀ r ∈ fs, entryWellTyped r = true := by
  intro rs
  induction rs with
  | nil => exact fun _ => ⟨[], rfl, by simp⟩
  | cons r rest ih =>
    intro h
    have hr := h r (List.mem_cons_self _ _)
    obtain ⟨fs, hfs, hall⟩ := ih (fun x hx => h x (List.mem_cons_of_mem _ hx))
    have hlen : ∃ len, r.length = some len := by
      have h2 := hr
      unfold entryWellTyped at h2
      simp only [Bool.and_eq_true] at h2
      obtain ⟨⟨⟨⟨_, _⟩, h2l⟩, _⟩, _⟩ := h2
      exact Option.isSome_iff_exists.mp h2l
    obtain ⟨len, hlen⟩ := hlen
    refine ⟨if len ≠ wl then r :: fs else fs, ?_, ?_⟩
    · simp only [filter_by_length, hlen, hfs]
      rfl
    · intro x hx
      by_cases hc : len ≠ wl
      · rw [if_pos hc] at hx
        rcases List.mem_cons.mp hx with rfl | hx2
        · exact hr
        · exact hall x hx2
      · rw [if_neg hc] at hx
        exact hall x hx

theorem formatFfufLine_wellTyped {r : FfufEntry} (h : entryWellTyped r = true) :
    ∃ s, formatFfufLine r = Except.ok s := by
  obtain ⟨fz, st, len, wd, ln⟩ := r
  cases fz with
  | none => simp [entryWellTyped] at h
  | some fz =>
    cases st with
    | none => simp [entryWellTyped] at h
    | some st =>
      cases len with
      | none => simp [entryWellTyped] at h
      | some len =>
        cases wd with
        | none => simp [entryWellTyped] at h
        | some wd =>
          cases ln with
          | none => simp [entryWellTyped] at h
          | some ln => exact ⟨_, rfl⟩

theorem formatFfufLines_wellTyped : ∀ {rs : List FfufEntry},
    (∀ r ∈ rs, entryWellTyped r = true) →
    ∃ ss, formatFfufLines rs = Except.ok ss := by
  intro rs
  induction rs with
  | nil => exact fun _ => ⟨[], rfl⟩
  | cons r rest ih =>
    intro h
    obtain ⟨s, hs⟩ := formatFfufLine_wellTyped (h r (List.mem_cons_self _ _))
    obtain ⟨ss, hss⟩ := ih (fun x hx => h x (List.mem_cons_of_mem _ hx))
    refine ⟨s :: ss, ?_⟩
    simp only [formatFfufLines, hs, hss]
    rfl

theorem runStep_ffuf_ok_wellTyped (rc : Int) (out : String) (rs : List FfufEntry)
    (wl : Nat) (h : ∀ r ∈ rs, entryWellTyped r = true) :
    (runStep "Ffuf" ⟨rc, out⟩ (FfufFile.parsed (some rs)) (some wl)).isOk = true := by
  obtain ⟨fs, hfs, hall⟩ := filter_by_length_wellTyped wl h
  obtain ⟨ss, hss⟩ := formatFfufLines_wellTyped hall
  have hr : runStep "Ffuf" ⟨rc, out⟩ (FfufFile.parsed (some rs)) (some wl) =
      (match filter_by_length rs wl with
       | Except.error e => Except.error e
       | Except.ok filtered_results =>
         match formatFfufLines filtered_results with
         | Except.error e => Except.error e
         | Except.ok line_strings =>
           Except.ok (String.intercalate "\n" line_strings)).map
        (fun o => (⟨"Ffuf", pyStrip o⟩ : ScanResult)) := rfl
  rw [hr, hfs]
  show (Except.map (fun o => ({ Tool := "Ffuf", Result := pyStrip o } : ScanResult))
      (match formatFfufLines fs with
       | Except.error e => Except.error e
       | Except.ok line_strings =>
         Except.ok (String.intercalate "\n" line_strings))).isOk = true
  rw [hss]
  rfl

/-- Claim C2 (amended): normalization never raises for the WAF-detect,
service-scan and vuln-scan branches, and for the fingerprint branch whenever
the checked output contains a space (in particular always on a failed run,
whose text starts with the error marker).  The content-discovery branch never
raises when no wildcard baseline is available (the entries are never
touched), nor when the structured file parses to an object whose surviving
entries are schema-conformant.  The exceptions are exactly the fingerprint
branch on spaceless text and the content-discovery branch on a
missing/malformed structured file or, when a baseline is present, on an
ill-typed results entry (subscripting it raises). -/
theorem C2_amended (rc : Int) (out : String) (f : FfufFile) (w : Option Nat) :
    (runStep "Wafwoof" ⟨rc, out⟩ f w).isOk = true ∧
    (runStep "Nmap" ⟨rc, out⟩ f w).isOk = true ∧
    (runStep "Nikto" ⟨rc, out⟩ f w).isOk = true ∧
    (rc ≠ 0 → (runStep "Whatweb" ⟨rc, out⟩ f w).isOk = true) ∧
    (' ' ∈ ((logCheckingCodes "Whatweb" rc out).1).data →
      (runStep "Whatweb" ⟨rc, out⟩ f w).isOk = true) ∧
    (∀ rs, (runStep "Ffuf" ⟨rc, out⟩ (FfufFile.parsed rs) none).isOk = true) ∧
    (∀ rs wl, (∀ r ∈ rs, entryWellTyped r = true) →
      (runStep "Ffuf" ⟨rc, out⟩ (FfufFile.parsed (some rs)) (some wl)).isOk = true) ∧
    (∀ rest wl, (runStep "Ffuf" ⟨rc, out⟩
      (FfufFile.parsed (some (illEntry :: rest))) (some wl)).isOk = false) := by
  refine ⟨rfl, rfl, rfl, fun h => runStep_whatweb_ok_of_fail out f w h,
    fun h => runStep_whatweb_ok_of_space f w h, fun rs => ?_,
    fun rs wl h => runStep_ffuf_ok_wellTyped rc out rs wl h,
    fun rest wl => rfl⟩
  cases rs <;> rfl

/-- Witness for C2 (amended) at concrete inputs: a failed fingerprint run, a
succeeding one with a space, and a baseline-filtered well-typed entry. -/
theorem C2_witness :
    (runStep "Whatweb" ⟨1, "boom"⟩ FfufFile.absent none).isOk = true ∧
    (runStep "Whatweb" ⟨0, "a b"⟩ FfufFile.absent none).isOk = true ∧
    (runStep "Ffuf" ⟨0, "c"⟩ (FfufFile.parsed (some [goodEntry])) (some 5)).isOk = true :=
  ⟨(C2_amended 1 "boom" FfufFile.absent none).2.2.2.1 (by decide),
   (C2_amended 0 "a b" FfufFile.absent none).2.2.2.2.1 (by decide),
   (C2_amended 0 "c" FfufFile.absent none).2.2.2.2.2.2.1 [goodEntry] 5 (by decide)⟩

-- ─── C1: content-discovery structured-file failure is fatal ──────────────────

/-- Claim C1 (counterexample): with the structured results file absent, the
pipeline aborts with an uncaught `FileNotFoundError` instead of recording an
empty-finding ScanResult for Ffuf and continuing to Nikto. -/
theorem C1_counterexample :
    runPipeline [("Ffuf", ⟨0, "console text"⟩, FfufFile.absent, none),
                 ("Nikto", ⟨0, "+ /a.php found"⟩, FfufFile.absent, none)] =
      Except.error NormError.fileNotFound := by
  decide

/-- Claim C1 (amended): absence or malformed content of the structured
results file raises an uncaught exception that aborts the scan (no ScanResult
for the content-discovery tool, no continuation to later tools); the
empty-finding fallback occurs only when the file parses to a JSON object
lacking the `results` key. -/
theorem C1_amended (out : String) (w : Option Nat) (wl : Nat)
    (rest : List (String × Outcome × FfufFile × Option Nat)) :
    (runStep "Ffuf" ⟨0, out⟩ FfufFile.absent w).isOk = false ∧
    (runStep "Ffuf" ⟨0, out⟩ FfufFile.malformed w).isOk = false ∧
    runStep "Ffuf" ⟨0, out⟩ (FfufFile.parsed none) (some wl) = Except.ok ⟨"Ffuf", ""⟩ ∧
    runPipeline (("Ffuf", ⟨0, out⟩, FfufFile.absent, w) :: rest) =
      Except.error NormError.fileNotFound :=
  ⟨rfl, rfl, rfl, rfl⟩

-- ─── C3: aggregation invariant ───────────────────────────────────────────────

theorem runStep_tool {n : String} {o : Outcome} {f : FfufFile} {w : Option Nat}
    {r : ScanResult} (h : runStep n o f w = Except.ok r) : r.Tool = n := by
  unfold runStep at h
  cases hn : normalizeStep n o f w with
  | error e =>
    rw [hn] at h
    exact absurd h (by simp [Except.map])
  | ok t =>
    rw [hn] at h
    simp only [Except.map, Except.ok.injEq] at h
    rw [← h]

/-- Claim C3 (counterexample): a fingerprint tool run that exits 0 with
space-free output makes the loop raise, so the recorded identifier sequence
is not the selected sequence (nothing at all is recorded). -/
theorem C3_counterexample :
    runPipeline [("Whatweb", ⟨0, "NoSpaceOutput"⟩, FfufFile.absent, none)] =
      Except.error NormError.indexError := by
  decide

/-- Claim C3 (amended): whenever every selected tool's normalization step
raises no exception — which nonzero exit codes alone never cause outside the
content-discovery branch — the pipeline records exactly one ScanResult per
selected tool, whose identifiers are the selected identifiers in order (hence
without duplicates whenever the selection is duplicate-free). -/
theorem C3_amended (entries : List (String × Outcome × FfufFile × Option Nat))
    (h : ∀ e ∈ entries, (runStep e.1 e.2.1 e.2.2.1 e.2.2.2).isOk = true) :
    ∃ rs, runPipeline entries = Except.ok rs ∧
      rs.map ScanResult.Tool = entries.map (fun e => e.1) ∧
      ((entries.map (fun e => e.1)).Nodup → (rs.map ScanResult.Tool).Nodup) := by
  induction entries with
  | nil => exact ⟨[], rfl, rfl, fun h2 => h2⟩
  | cons e rest ih =>
    obtain ⟨n, o, fl, w⟩ := e
    have h1 := h _ (List.mem_cons_self _ _)
    cases hr : runStep n o fl w with
    | error err =>
      rw [hr] at h1
      exact absurd h1 (by simp [Except.isOk, Except.toBool])
    | ok r =>
      obtain ⟨rs, hrs, hmap, _⟩ := ih (fun e he => h e (List.mem_cons_of_mem _ he))
      have htool : r.Tool = n := runStep_tool hr
      have hmap2 : (r :: rs).map ScanResult.Tool =
          ((n, o, fl, w) :: rest).map (fun e => e.1) := by
        simp [hmap, htool]
      refine ⟨r :: rs, ?_, hmap2, fun hnd => hmap2 ▸ hnd⟩
      unfold runPipeline
      rw [hr, hrs]
      rfl

/-- Witness for C3 (amended) at a concrete two-tool input whose first tool
fails with exit code 1. -/
theorem C3_witness :
    (∀ e ∈ sampleEntries, (runStep e.1 e.2.1 e.2.2.1 e.2.2.2).isOk = true) ∧
    ∃ rs, runPipeline sampleEntries = Except.ok rs ∧
      rs.map ScanResult.Tool = sampleEntries.map (fun e => e.1) ∧
      ((sampleEntries.map (fun e => e.1)).Nodup → (rs.map ScanResult.Tool).Nodup) :=
  ⟨by decide, C3_amended sampleEntries (by decide)⟩

-- ─── C10: content-discovery with no wildcard baseline ────────────────────────

/-- Claim C10: when the wildcard probe yields no baseline, the
content-discovery ScanResult's text is the captured console output (stripped,
as for every tool): the parsed findings are neither filtered nor formatted,
whatever they are. -/
theorem C10_theorem (out : String) (rs : List FfufEntry) :
    runStep "Ffuf" ⟨0, out⟩ (FfufFile.parsed (some rs)) none =
      Except.ok ⟨"Ffuf", pyStrip out⟩ := by
  have h : runStep "Ffuf" ⟨0, out⟩ (FfufFile.parsed (some rs)) none =
      Except.ok ⟨"Ffuf", pyStrip (pyStrip out)⟩ := rfl
  rw [h, pyStrip_idem]

-- ─── C8: nonzero exit codes outside the vuln-scan special case ───────────────

/-- Claim C8 (counterexample): a failed WAF-detect run whose raw output has a
verdict marker on a later line records that marker line alone — the final
text is neither error-flavored nor contains the raw captured output, because
the cleaning branch runs after the error payload is built. -/
theorem C8_counterexample :
    runStep "Wafwoof" ⟨1, "probe output\nthe site is behind CloudFront"⟩
        FfufFile.absent none =
      Except.ok ⟨"Wafwoof", "the site is behind CloudFront"⟩ ∧
    containsS "probe output" "the site is behind CloudFront" = false ∧
    startsWithC "Error:".data "the site is behind CloudFront".data = false := by
  decide

/-- Claim C8 (amended): for every tool other than the vuln-scan tool, a
nonzero exit code makes `log_checking_codes` log the failure and return the
error payload `"Error: "` plus the stripped raw output — but that payload is
then still fed through the tool's cleaning branch rather than recorded
verbatim; the pipeline does continue for the fingerprint, WAF-detect and
service-scan tools (their branches cannot raise on the payload). -/
theorem C8_amended (tool_name : String) (rc : Int) (out : String)
    (h1 : tool_name ≠ "Nikto") (h2 : rc ≠ 0) :
    logCheckingCodes tool_name rc out =
      ("Error: " ++ pyStrip out,
       [LogEvent.error (tool_name ++ " failed with exit code " ++ toString rc)]) ∧
    ∀ f w, (tool_name = "Wafwoof" ∨ tool_name = "Whatweb" ∨ tool_name = "Nmap") →
      (runStep tool_name ⟨rc, out⟩ f w).isOk = true := by
  refine ⟨logCheckingCodes_fail out h1 h2, ?_⟩
  rintro f w (rfl | rfl | rfl)
  · rfl
  · exact runStep_whatweb_ok_of_fail out f w h2
  · rfl

/-- Witness for C8 (amended) at a concrete failed WAF-detect run. -/
theorem C8_witness :
    ("Wafwoof" : String) ≠ "Nikto" ∧ (1 : Int) ≠ 0 ∧
    (logCheckingCodes "Wafwoof" 1 " x " =
      ("Error: " ++ pyStrip " x ",
       [LogEvent.error ("Wafwoof" ++ " failed with exit code " ++ toString (1 : Int))]) ∧
     ∀ f w, ("Wafwoof" : String) = "Wafwoof" ∨ ("Wafwoof" : String) = "Whatweb" ∨
         ("Wafwoof" : String) = "Nmap" →
       (runStep "Wafwoof" ⟨1, " x "⟩ f w).isOk = true) :=
  ⟨by decide, by decide, C8_amended "Wafwoof" 1 " x " (by decide) (by decide)⟩

-- ─── Helper lemmas: selection ────────────────────────────────────────────────

theorem mem_dedupKeysFirst {x : String} : ∀ {l : List String},
    x ∈ dedupKeysFirst l → x ∈ l := by
  intro l
  induction l with
  | nil => intro h; simp [dedupKeysFirst] at h
  | cons k ks ih =>
    intro h
    rw [dedupKeysFirst] at h
    rcases List.mem_cons.mp h with h1 | h1
    · exact h1 ▸ List.mem_cons_self _ _
    · exact List.mem_cons_of_mem _ (ih (List.mem_filter.mp h1).1)

theorem nodup_dedupKeysFirst : ∀ l : List String, (dedupKeysFirst l).Nodup := by
  intro l
  induction l with
  | nil => simp [dedupKeysFirst]
  | cons k ks ih =>
    rw [dedupKeysFirst]
    refine List.nodup_cons.mpr ⟨?_, List.Nodup.filter _ ih⟩
    intro hk
    have h2 := (List.mem_filter.mp hk).2
    simp at h2

theorem find_valid (cfg : Config) (t : String)
    (h : (allowed_tools.map pyLower).contains t = true) :
    ∃ kc, (commandsL cfg).find? (fun kc => pyLower kc.1 == t) = some kc ∧
      pyLower kc.1 = t ∧ kc ∈ commandsL cfg := by
  have hlist : allowed_tools.map pyLower = ["nmap", "whatweb", "wafwoof", "ffuf", "nikto"] := by
    decide
  rw [hlist] at h
  have hmem : t = "nmap" ∨ t = "whatweb" ∨ t = "wafwoof" ∨ t = "ffuf" ∨ t = "nikto" := by
    have h2 : t ∈ (["nmap", "whatweb", "wafwoof", "ffuf", "nikto"] : List String) :=
      List.elem_iff.mp h
    simpa using h2
  rcases hmem with rfl | rfl | rfl | rfl | rfl
  · exact ⟨("Nmap", ["nmap", "-sV", "-p", cfg.ports, cfg.target_ip]), rfl,
      (by decide : pyLower "Nmap" = "nmap"), by simp [commandsL]⟩
  · exact ⟨("Whatweb", ["whatweb", cfg.url]), rfl,
      (by decide : pyLower "Whatweb" = "whatweb"), by simp [commandsL]⟩
  · exact ⟨("Wafwoof", ["wafw00f", cfg.url]), rfl,
      (by decide : pyLower "Wafwoof" = "wafwoof"), by simp [commandsL]⟩
  · exact ⟨("Ffuf", ["ffuf", "-u", cfg.url ++ "/FUZZ", "-w", cfg.seclist_file,
        "-of", "json", "-o", "./outputs/ffuf_result.json"]), rfl,
      (by decide : pyLower "Ffuf" = "ffuf"), by simp [commandsL]⟩
  · exact ⟨("Nikto", ["nikto", "-h", cfg.url]), rfl,
      (by decide : pyLower "Nikto" = "nikto"), by simp [commandsL]⟩

theorem filterMap_find_keys (cfg : Config) :
    ∀ ts : List String, (∀ t ∈ ts, (allowed_tools.map pyLower).contains t = true) →
      ((ts.filterMap (fun t => (commandsL cfg).find? (fun kc => pyLower kc.1 == t))).map
          (fun kc => pyLower kc.1) = ts) ∧
      (∀ kc ∈ ts.filterMap (fun t => (commandsL cfg).find? (fun kc => pyLower kc.1 == t)),
        kc ∈ commandsL cfg) := by
  intro ts
  induction ts with
  | nil => exact fun _ => ⟨rfl, by simp⟩
  | cons t ts ih =>
    intro h
    obtain ⟨kc, hfind, hkey, hmem⟩ := find_valid cfg t (h t (List.mem_cons_self _ _))
    obtain ⟨ih1, ih2⟩ := ih (fun x hx => h x (List.mem_cons_of_mem _ hx))
    constructor
    · simp only [List.filterMap_cons, hfind, List.map_cons, ih1, hkey]
    · intro kc2 hkc2
      simp only [List.filterMap_cons, hfind] at hkc2
      rcases List.mem_cons.mp hkc2 with rfl | h2
      · exact hmem
      · exact ih2 _ h2

-- ─── C5: unknown tool names are fatal and reported together ──────────────────

/-- Claim C5: a selection string (other than the sentinel) containing a token
that matches no registry identifier case-insensitively makes selection fail
with exit code 1, the error listing every offending token at once, and no
command is dispatched. -/
theorem C5_theorem (cfg : Config) (tools : String) (h1 : tools ≠ "all")
    (h2 : (tokensOf tools).filter (fun t => !((allowed_tools.map pyLower).contains t)) ≠ []) :
    filterCommands cfg tools =
      Except.error ⟨(tokensOf tools).filter
        (fun t => !((allowed_tools.map pyLower).contains t)), 1⟩ ∧
    (∀ t ∈ tokensOf tools, (allowed_tools.map pyLower).contains t = false →
      t ∈ (tokensOf tools).filter (fun t => !((allowed_tools.map pyLower).contains t))) ∧
    dispatchedCommands cfg tools = [] := by
  have hfc : filterCommands cfg tools =
      Except.error ⟨(tokensOf tools).filter
        (fun t => !((allowed_tools.map pyLower).contains t)), 1⟩ := by
    unfold filterCommands
    rw [if_neg h1, if_neg h2]
  refine ⟨hfc, ?_, ?_⟩
  · intro t ht hc
    exact List.mem_filter.mpr ⟨ht, by simp only [hc, Bool.not_false]⟩
  · unfold dispatchedCommands
    rw [hfc]

/-- Witness for C5 at the spec's own example `"nmap,foo"`. -/
theorem C5_witness :
    ("nmap,foo" : String) ≠ "all" ∧
    (tokensOf "nmap,foo").filter (fun t => !((allowed_tools.map pyLower).contains t)) ≠ [] ∧
    (filterCommands cfg0 "nmap,foo" =
        Except.error ⟨(tokensOf "nmap,foo").filter
          (fun t => !((allowed_tools.map pyLower).contains t)), 1⟩ ∧
      (∀ t ∈ tokensOf "nmap,foo", (allowed_tools.map pyLower).contains t = false →
        t ∈ (tokensOf "nmap,foo").filter
          (fun t => !((allowed_tools.map pyLower).contains t))) ∧
      dispatchedCommands cfg0 "nmap,foo" = []) :=
  ⟨by decide, by decide, C5_theorem cfg0 "nmap,foo" (by decide) (by decide)⟩

-- ─── C6: valid selections ────────────────────────────────────────────────────

/-- Claim C6: for the sentinel `"all"` the full registry is returned in its
declared order; for any other selection whose tokens are all valid, the
returned list consists of registry entries, its lower-cased keys are exactly
the caller's tokens with duplicates collapsed to their first occurrence
(caller order preserved, case-insensitive matching), and there are no
duplicate keys. -/
theorem C6_theorem (cfg : Config) (tools : String) :
    (tools = "all" → filterCommands cfg tools = Except.ok (commandsL cfg)) ∧
    (tools ≠ "all" →
      (tokensOf tools).filter (fun t => !((allowed_tools.map pyLower).contains t)) = [] →
      ∃ l, filterCommands cfg tools = Except.ok l ∧
        (∀ kc ∈ l, kc ∈ commandsL cfg) ∧
        l.map (fun kc => pyLower kc.1) = dedupKeysFirst (tokensOf tools) ∧
        (l.map Prod.fst).Nodup) := by
  constructor
  · intro h
    unfold filterCommands
    rw [if_pos h]
  · intro h1 h2
    have hall : ∀ t ∈ tokensOf tools, (allowed_tools.map pyLower).contains t = true := by
      intro t ht
      by_contra hc
      have hc2 : (!((allowed_tools.map pyLower).contains t)) = true := by
        simp only [Bool.not_eq_true] at hc
        simp only [hc, Bool.not_false]
      have hmem2 : t ∈ (tokensOf tools).filter
          (fun t => !((allowed_tools.map pyLower).contains t)) :=
        List.mem_filter.mpr ⟨ht, hc2⟩
      rw [h2] at hmem2
      simp at hmem2
    obtain ⟨hkeys, hmem⟩ := filterMap_find_keys cfg (dedupKeysFirst (tokensOf tools))
      (fun t ht => hall t (mem_dedupKeysFirst ht))
    refine ⟨_, ?_, hmem, hkeys, ?_⟩
    · unfold filterCommands
      rw [if_neg h1, if_pos h2]
    · have h3 : ((dedupKeysFirst (tokensOf tools)).filterMap
          (fun t => (commandsL cfg).find? (fun kc => pyLower kc.1 == t))).map
          (pyLower ∘ Prod.fst) = dedupKeysFirst (tokensOf tools) := hkeys
      have h4 : (((dedupKeysFirst (tokensOf tools)).filterMap
          (fun t => (commandsL cfg).find? (fun kc => pyLower kc.1 == t))).map
          (pyLower ∘ Prod.fst)).Nodup := by
        rw [h3]
        exact nodup_dedupKeysFirst _
      rw [← List.map_map] at h4
      exact h4.of_map

/-- Witness for C6 at the spec's own example `"nmap,NIKTO"`. -/
theorem C6_witness :
    ("nmap,NIKTO" : String) ≠ "all" ∧
    (tokensOf "nmap,NIKTO").filter (fun t => !((allowed_tools.map pyLower).contains t)) = [] ∧
    ∃ l, filterCommands cfg0 "nmap,NIKTO" = Except.ok l ∧
      (∀ kc ∈ l, kc ∈ commandsL cfg0) ∧
      l.map (fun kc => pyLower kc.1) = dedupKeysFirst (tokensOf "nmap,NIKTO") ∧
      (l.map Prod.fst).Nodup :=
  ⟨by decide, by decide, (C6_theorem cfg0 "nmap,NIKTO").2 (by decide) (by decide)⟩

-- ─── C9: the sentinel is matched exactly ─────────────────────────────────────

/-- Claim C9: whenever the whole selection string is not exactly `"all"` but
one of its tokens normalizes to `"all"` (so for `"ALL"`, `"All"`,
`"all,nmap"`, ...), that token matches no registry identifier: selection
fails with exit code 1, the error naming `"all"`, and nothing is
dispatched. -/
theorem C9_theorem (cfg : Config) (tools : String) (h1 : tools ≠ "all")
    (h2 : "all" ∈ tokensOf tools) :
    ∃ e, filterCommands cfg tools = Except.error e ∧ "all" ∈ e.invalid ∧
      e.exitCode = 1 ∧ dispatchedCommands cfg tools = [] := by
  have hinv : "all" ∈ (tokensOf tools).filter
      (fun t => !((allowed_tools.map pyLower).contains t)) :=
    List.mem_filter.mpr ⟨h2, by decide⟩
  have hne : (tokensOf tools).filter
      (fun t => !((allowed_tools.map pyLower).contains t)) ≠ [] := by
    intro h
    rw [h] at hinv
    simp at hinv
  have hfc : filterCommands cfg tools =
      Except.error ⟨(tokensOf tools).filter
        (fun t => !((allowed_tools.map pyLower).contains t)), 1⟩ := by
    unfold filterCommands
    rw [if_neg h1, if_neg hne]
  refine ⟨_, hfc, hinv, rfl, ?_⟩
  unfold dispatchedCommands
  rw [hfc]

/-- Witness for C9 at the upper-case selection string `"ALL"`. -/
theorem C9_witness :
    ("ALL" : String) ≠ "all" ∧ "all" ∈ tokensOf "ALL" ∧
    ∃ e, filterCommands cfg0 "ALL" = Except.error e ∧ "all" ∈ e.invalid ∧
      e.exitCode = 1 ∧ dispatchedCommands cfg0 "ALL" = [] :=
  ⟨by decide, by decide, C9_theorem cfg0 "ALL" (by decide) (by decide)⟩

-- ─── Helper lemmas: Nikto selection invariants ───────────────────────────────

theorem niktoSelectGo_mem : ∀ (ls : List (List Char)) (seen : List (List Char))
    (l : List Char), l ∈ niktoSelectGo seen ls → isFindingLine l = true ∧ l ∈ ls := by
  intro ls
  induction ls with
  | nil => intro seen l h; simp [niktoSelectGo] at h
  | cons l0 ls ih =>
    intro seen l h
    simp only [niktoSelectGo] at h
    split at h
    · split at h
      · split at h
        · obtain ⟨h1, h2⟩ := ih seen l h
          exact ⟨h1, List.mem_cons_of_mem _ h2⟩
        · rcases List.mem_cons.mp h with rfl | h2
          · exact ⟨by assumption, List.mem_cons_self _ _⟩
          · obtain ⟨h1, h3⟩ := ih _ l h2
            exact ⟨h1, List.mem_cons_of_mem _ h3⟩
      · rcases List.mem_cons.mp h with rfl | h2
        · exact ⟨by assumption, List.mem_cons_self _ _⟩
        · obtain ⟨h1, h3⟩ := ih seen l h2
          exact ⟨h1, List.mem_cons_of_mem _ h3⟩
    · obtain ⟨h1, h2⟩ := ih seen l h
      exact ⟨h1, List.mem_cons_of_mem _ h2⟩

theorem contains_cons_of_contains {seen : List (List Char)} {b b0 : List Char}
    (h : seen.contains b = true) : (b0 :: seen).contains b = true :=
  List.elem_iff.mpr (List.mem_cons_of_mem _ (List.elem_iff.mp h))

theorem niktoSelectGo_blocked : ∀ (ls : List (List Char)) (seen : List (List Char))
    (b : List Char), seen.contains b = true →
    (niktoSelectGo seen ls).countP (fun l => lineBase l == some b) = 0 := by
  intro ls
  induction ls with
  | nil => intro seen b h; simp [niktoSelectGo]
  | cons l0 ls ih =>
    intro seen b h
    by_cases hf : isFindingLine l0 = true
    · cases hb : lineBase l0 with
      | some b0 =>
        by_cases hs : seen.contains b0 = true
        · have hred : niktoSelectGo seen (l0 :: ls) = niktoSelectGo seen ls := by
            simp only [niktoSelectGo, hf, hb, if_true]
            rw [if_pos hs]
          rw [hred]
          exact ih seen b h
        · have hred : niktoSelectGo seen (l0 :: ls) = l0 :: niktoSelectGo (b0 :: seen) ls := by
            simp only [niktoSelectGo, hf, hb, if_true]
            rw [if_neg hs]
          have hne : (lineBase l0 == some b) = false := by
            rw [hb]
            by_contra hx
            rw [Bool.not_eq_false] at hx
            have hbb : b0 = b := by simpa using hx
            subst hbb
            exact hs h
          rw [hred]
          simp only [List.countP_cons, hne, if_false]
          rw [ih (b0 :: seen) b (contains_cons_of_contains h)]
          rfl
      | none =>
        have hred : niktoSelectGo seen (l0 :: ls) = l0 :: niktoSelectGo seen ls := by
          simp only [niktoSelectGo, hf, hb, if_true]
        have hne : (lineBase l0 == some b) = false := by rw [hb]; rfl
        rw [hred]
        simp only [List.countP_cons, hne, if_false]
        rw [ih seen b h]
        rfl
    · have hred : niktoSelectGo seen (l0 :: ls) = niktoSelectGo seen ls := by
        simp only [niktoSelectGo]
        rw [if_neg hf]
      rw [hred]
      exact ih seen b h

theorem contains_cons_false {seen : List (List Char)} {b b0 : List Char}
    (hs : seen.contains b = false) (hne : b0 ≠ b) : (b0 :: seen).contains b = false := by
  cases hx : (b0 :: seen).contains b
  · rfl
  · exfalso
    rcases List.mem_cons.mp (List.elem_iff.mp hx) with he | he
    · exact hne he.symm
    · have hx2 : seen.contains b = true := List.elem_iff.mpr he
      rw [hs] at hx2
      exact Bool.false_ne_true hx2

theorem niktoSelectGo_count_le : ∀ (ls seen : List (List Char)) (b : List Char),
    (niktoSelectGo seen ls).countP (fun l => lineBase l == some b) ≤ 1 := by
  intro ls
  induction ls with
  | nil => intro seen b; simp [niktoSelectGo]
  | cons l0 ls ih =>
    intro seen b
    by_cases hf : isFindingLine l0 = true
    · cases hb : lineBase l0 with
      | some b0 =>
        by_cases hs : seen.contains b0 = true
        · have hred : niktoSelectGo seen (l0 :: ls) = niktoSelectGo seen ls := by
            simp only [niktoSelectGo, hf, hb, if_true]
            rw [if_pos hs]
          rw [hred]
          exact ih seen b
        · have hred : niktoSelectGo seen (l0 :: ls) = l0 :: niktoSelectGo (b0 :: seen) ls := by
            simp only [niktoSelectGo, hf, hb, if_true]
            rw [if_neg hs]
          rw [hred]
          by_cases hbb : b0 = b
          · subst hbb
            have hp : (lineBase l0 == some b0) = true := by rw [hb]; simp
            simp only [List.countP_cons, hp, if_true]
            rw [niktoSelectGo_blocked ls (b0 :: seen) b0
              (List.elem_iff.mpr (List.mem_cons_self _ _))]
          · have hp : (lineBase l0 == some b) = false := by
              rw [hb]
              simp [hbb]
            simp only [List.countP_cons, hp]
            rw [if_neg Bool.false_ne_true]
            have h2 := ih (b0 :: seen) b
            omega
      | none =>
        have hred : niktoSelectGo seen (l0 :: ls) = l0 :: niktoSelectGo seen ls := by
          simp only [niktoSelectGo, hf, hb, if_true]
        have hp : (lineBase l0 == some b) = false := by rw [hb]; rfl
        rw [hred]
        simp only [List.countP_cons, hp]
        rw [if_neg Bool.false_ne_true]
        have h2 := ih seen b
        omega
    · have hred : niktoSelectGo seen (l0 :: ls) = niktoSelectGo seen ls := by
        simp only [niktoSelectGo]
        rw [if_neg hf]
      rw [hred]
      exact ih seen b

theorem niktoSelectGo_first : ∀ (ls seen : List (List Char)) (b : List Char) (l : List Char),
    seen.contains b = false →
    (ls.filter (fun x => isFindingLine x && lineBase x == some b)).head? = some l →
    l ∈ niktoSelectGo seen ls := by
  intro ls
  induction ls with
  | nil => intro seen b l hs hh; simp at hh
  | cons l0 ls ih =>
    intro seen b l hs hh
    by_cases hp : (isFindingLine l0 && lineBase l0 == some b) = true
    · simp only [List.filter_cons, hp, if_true, List.head?_cons, Option.some.injEq] at hh
      subst hh
      have hfb : isFindingLine l0 = true ∧ (lineBase l0 == some b) = true := by
        simpa [Bool.and_eq_true] using hp
      have hf : isFindingLine l0 = true := hfb.1
      have hb2 : lineBase l0 = some b := by
        have hb := hfb.2
        simpa using hb
      have hred : niktoSelectGo seen (l0 :: ls) = l0 :: niktoSelectGo (b :: seen) ls := by
        simp only [niktoSelectGo, hf, hb2, if_true]
        rw [if_neg (fun hx => by rw [hs] at hx; exact Bool.false_ne_true hx)]
      rw [hred]
      exact List.mem_cons_self _ _
    · simp only [List.filter_cons, hp, if_false] at hh
      by_cases hf : isFindingLine l0 = true
      · cases hbx : lineBase l0 with
        | some b0 =>
          have hbb : b0 ≠ b := by
            intro he
            subst he
            apply hp
            rw [Bool.and_eq_true]
            refine ⟨hf, ?_⟩
            rw [hbx]
            simp
          by_cases hsx : seen.contains b0 = true
          · have hred : niktoSelectGo seen (l0 :: ls) = niktoSelectGo seen ls := by
              simp only [niktoSelectGo, hf, hbx, if_true]
              rw [if_pos hsx]
            rw [hred]
            exact ih seen b l hs hh
          · have hred : niktoSelectGo seen (l0 :: ls) = l0 :: niktoSelectGo (b0 :: seen) ls := by
              simp only [niktoSelectGo, hf, hbx, if_true]
              rw [if_neg hsx]
            rw [hred]
            exact List.mem_cons_of_mem _ (ih (b0 :: seen) b l (contains_cons_false hs hbb) hh)
        | none =>
          have hred : niktoSelectGo seen (l0 :: ls) = l0 :: niktoSelectGo seen ls := by
            simp only [niktoSelectGo, hf, hbx, if_true]
          rw [hred]
          exact List.mem_cons_of_mem _ (ih seen b l hs hh)
      · have hred : niktoSelectGo seen (l0 :: ls) = niktoSelectGo seen ls := by
          simp only [niktoSelectGo]
          rw [if_neg hf]
        rw [hred]
        exact ih seen b l hs hh

-- ─── C7: vuln-scan filtering and dedup ───────────────────────────────────────

/-- Claim C7: Nikto normalization keeps only finding-marker lines (separator
and other lines are dropped); among the kept lines at most one carries any
given path base name (extension-insensitive dedup), and the first input
finding line carrying a base name is always retained — so every later line
with the same base name is dropped. -/
theorem C7_theorem (s : String) (b : List Char) :
    (∀ l ∈ niktoSelect (splitLinesC s.data),
      isFindingLine l = true ∧ l ∈ splitLinesC s.data) ∧
    (niktoSelect (splitLinesC s.data)).countP (fun l => lineBase l == some b) ≤ 1 ∧
    (∀ l, ((splitLinesC s.data).filter
        (fun x => isFindingLine x && lineBase x == some b)).head? = some l →
      l ∈ niktoSelect (splitLinesC s.data)) :=
  ⟨fun l h => niktoSelectGo_mem _ _ l h,
   niktoSelectGo_count_le _ _ b,
   fun l h => niktoSelectGo_first _ _ b l rfl h⟩

/-- Witness for C7 at the spec's `config.php` / `config.bak` example. -/
theorem C7_witness :
    ((splitLinesC niktoSample.data).filter
        (fun x => isFindingLine x && lineBase x == some "config".data)).head? =
      some "+ /admin/config.php found".data ∧
    "+ /admin/config.php found".data ∈ niktoSelect (splitLinesC niktoSample.data) ∧
    (niktoSelect (splitLinesC niktoSample.data)).countP
      (fun l => lineBase l == some "config".data) ≤ 1 :=
  ⟨by decide,
   (C7_theorem niktoSample "config".data).2.2 _ (by decide),
   (C7_theorem niktoSample "config".data).2.1⟩
